import Mathlib

/-!
Verification of the curve volume block-device client against its
natural-language specification.

The repository ships the unit tests of the client
(curvefs/test/volume/block_device_client_test.cpp) but not the
implementation file itself, so the client is modelled from the
specification, pinned at every behaviour the unit tests observe.  The
model is a state-passing shallow embedding: the external File Client
collaborator becomes an oracle, each public operation returns its result
together with the list of backend calls it issued, and byte buffers are
functions from positions to byte values.
-/

namespace CurveVolume

/-- Modelled from the spec: the fixed power-of-two alignment granularity
(4096 bytes) the backend requires I/O to be aligned to. -/
def blockSize : Nat := 4096

/-- Modelled from the spec: `alignOffset = floor(offset / blockSize) * blockSize`. -/
def alignOffset (offset : Nat) : Nat :=
  offset / blockSize * blockSize

/-- Modelled from the spec:
`alignLength = ceil((offset+length)/blockSize) * blockSize - alignOffset`,
with the ceiling written as `(n + blockSize - 1) / blockSize * blockSize`. -/
def alignLength (offset length : Nat) : Nat :=
  (offset + length + (blockSize - 1)) / blockSize * blockSize - alignOffset offset

/-- Modelled from the spec: the external File Client collaborator, as an
oracle.  `readRet fd offset length` is the backend return value of a
`Read(fd, buffer, offset, length)` call, `dataAt p` the device byte a
successful read delivers for absolute position `p`, `writeRet` the return
value of a backend `Write`, and `closeRet fd` the status of `Close(fd)`
(0 success, negative failure). -/
structure FileClient where
  readRet : Int → Nat → Nat → Int
  dataAt : Nat → Nat
  writeRet : Int → Nat → Nat → Int
  closeRet : Int → Int

/-- One backend call issued by the client; a write records the content
function handed to the backend (position in the written span ↦ byte). -/
inductive BackendCall where
  | read (fd : Int) (offset length : Nat)
  | write (fd : Int) (offset length : Nat) (content : Nat → Nat)
  | close (fd : Int)

/-- The (fd, offset, length) signatures of the backend read calls in a trace. -/
def readCalls : List BackendCall → List (Int × Nat × Nat)
  | [] => []
  | BackendCall.read fd o l :: rest => (fd, o, l) :: readCalls rest
  | _ :: rest => readCalls rest

/-- The (fd, offset, length) signatures of the backend write calls in a trace. -/
def writeCalls : List BackendCall → List (Int × Nat × Nat)
  | [] => []
  | BackendCall.write fd o l _ :: rest => (fd, o, l) :: writeCalls rest
  | _ :: rest => writeCalls rest

/-- The content functions of the backend write calls in a trace. -/
def writeContents : List BackendCall → List (Nat → Nat)
  | [] => []
  | BackendCall.write _ _ _ g :: rest => g :: writeContents rest
  | _ :: rest => writeContents rest

/-- Modelled from the spec: the boundary-page reads an unaligned Write
plans, as (offset, length) pairs.  A head-page read exists iff
`offset > alignOffset`; a tail-page read exists iff `offset+length` is
strictly inside the aligned range and past what the head read covers.
The unit tests pin one behaviour the spec text omits: when the head and
tail pages are adjacent the two block reads are merged into a single
read of both blocks (TestWriteWithUnAligned expects exactly one backend
`Read(0, 8192)` for `Write(1, 4096)` and for `Write(1000, 5000)`). -/
def paddingReads (ao al offset length : Nat) : List (Nat × Nat) :=
  let headReads : List (Nat × Nat) :=
    if offset ≠ ao then [(ao, blockSize)] else []
  let readEnd : Nat := if offset ≠ ao then ao + blockSize else 0
  if readEnd < offset + length ∧ offset + length ≠ ao + al then
    let readStart := ao + al - blockSize
    if headReads ≠ [] ∧ readStart = ao + blockSize then
      [(ao, blockSize + blockSize)]
    else
      headReads ++ [(readStart, blockSize)]
  else
    headReads

/-- Depositing one successful boundary read into the scratch buffer:
scratch index `i` corresponds to absolute position `ao + i`. -/
def applyRead (fc : FileClient) (ao : Nat) (scratch : Nat → Nat)
    (ro rl : Nat) : Nat → Nat :=
  fun i => if ro - ao ≤ i ∧ i < ro - ao + rl then fc.dataAt (ao + i) else scratch i

/-- Modelled from the spec: issue the planned boundary reads in order,
stopping at the first one whose backend return differs from the
requested length.  Returns (all reads validated, scratch buffer, calls). -/
def runReads (fc : FileClient) (fd : Int) (ao : Nat) :
    List (Nat × Nat) → (Nat → Nat) → Bool × (Nat → Nat) × List BackendCall
  | [], scratch => (true, scratch, [])
  | pr :: rest, scratch =>
    if fc.readRet fd pr.1 pr.2 = (pr.2 : Int) then
      let r := runReads fc fd ao rest (applyRead fc ao scratch pr.1 pr.2)
      (r.1, r.2.1, BackendCall.read fd pr.1 pr.2 :: r.2.2)
    else
      (false, scratch, [BackendCall.read fd pr.1 pr.2])

/-- Modelled from the spec: the assembled aligned write buffer — interior
positions come from the caller buffer, the rest from the scratch buffer
filled by the boundary reads. -/
def mergeBuf (buf : Nat → Nat) (offset ao length : Nat)
    (scratch : Nat → Nat) : Nat → Nat :=
  fun i =>
    if offset - ao ≤ i ∧ i < offset - ao + length then buf (i - (offset - ao))
    else scratch i

/-- Modelled from the spec: single-region `Read(buf, offset, length)` on a
client whose handle is `fd?` (`none` is the not-open sentinel).  Fails
fast with no backend call when no handle is open; a zero length is a
no-op; otherwise one backend read of the aligned range is issued,
succeeding iff the backend returns exactly the aligned length, in which
case the first `length` caller-buffer bytes receive the device content at
`offset + i`.  (The spec's aligned fast path and the scratch-copy path
differ only in buffer allocation, which is unobservable here; on failure
the caller buffer is left unchanged, as the scratch path guarantees and
the test mocks observe.)  Returns (result, caller buffer, backend calls). -/
def Read (fc : FileClient) (fd? : Option Int) (buf : Nat → Nat)
    (offset length : Nat) : Int × (Nat → Nat) × List BackendCall :=
  match fd? with
  | none => (-1, buf, [])
  | some fd =>
    if length = 0 then (0, buf, [])
    else
      let ao := alignOffset offset
      let al := alignLength offset length
      if fc.readRet fd ao al = (al : Int) then
        ((length : Int),
         fun i => if i < length then fc.dataAt (offset + i) else buf i,
         [BackendCall.read fd ao al])
      else
        (-1, buf, [BackendCall.read fd ao al])

/-- Modelled from the spec: single-region `Write(buf, offset, length)`.
Fails fast with no backend call when no handle is open; a zero length is
a no-op; an exactly aligned request is written directly; otherwise the
boundary-page reads are issued and validated first, any failure aborting
before the backend write, and on validation the single consolidated
backend write of the merged aligned buffer is issued, succeeding iff the
backend returns exactly the aligned length. -/
def Write (fc : FileClient) (fd? : Option Int) (buf : Nat → Nat)
    (offset length : Nat) : Int × List BackendCall :=
  match fd? with
  | none => (-1, [])
  | some fd =>
    if length = 0 then (0, [])
    else
      let ao := alignOffset offset
      let al := alignLength offset length
      if offset = ao ∧ length = al then
        (if fc.writeRet fd ao al = (al : Int) then (length : Int) else -1,
         [BackendCall.write fd ao al buf])
      else
        let r := runReads fc fd ao (paddingReads ao al offset length) (fun _ => 0)
        if r.1 then
          (if fc.writeRet fd ao al = (al : Int) then (length : Int) else -1,
           r.2.2 ++ [BackendCall.write fd ao al (mergeBuf buf offset ao length r.2.1)])
        else
          (-1, r.2.2)

/-- Modelled from the spec: `Close()` — success as a no-op when no handle
is open; otherwise closes via the backend, clearing the handle on
success and retaining it on a negative backend return.  Returns
(success, new handle state, backend calls). -/
def Close (fc : FileClient) (fd? : Option Int) :
    Bool × Option Int × List BackendCall :=
  match fd? with
  | none => (true, none, [])
  | some fd =>
    if 0 ≤ fc.closeRet fd then (true, none, [BackendCall.close fd])
    else (false, some fd, [BackendCall.close fd])

/-- An all-zero caller buffer, standing in for the per-part buffers of
vectorized calls (their content is irrelevant to the dispatch contract). -/
def zeroBuf : Nat → Nat := fun _ => 0

/-- Modelled from the spec: `Readv(parts)` — every part (offset, length)
is executed as a standalone single-region Read on the shared handle; all
parts run and are accounted regardless of earlier failures; the overall
result is the summed per-part result when no part failed and a single
negative value otherwise. -/
def Readv (fc : FileClient) (fd? : Option Int) (parts : List (Nat × Nat)) :
    Int × List BackendCall :=
  ((if (parts.map fun p => (Read fc fd? zeroBuf p.1 p.2).1).any (fun r => decide (r < 0))
    then -1
    else (parts.map fun p => (Read fc fd? zeroBuf p.1 p.2).1).sum),
   (parts.map fun p => (Read fc fd? zeroBuf p.1 p.2).2.2).flatten)

/-- Modelled from the spec: `Writev(parts)`, the write-side vector
dispatch, aggregated exactly as `Readv`. -/
def Writev (fc : FileClient) (fd? : Option Int) (buf : Nat → Nat)
    (parts : List (Nat × Nat)) : Int × List BackendCall :=
  ((if (parts.map fun p => (Write fc fd? buf p.1 p.2).1).any (fun r => decide (r < 0))
    then -1
    else (parts.map fun p => (Write fc fd? buf p.1 p.2).1).sum),
   (parts.map fun p => (Write fc fd? buf p.1 p.2).2).flatten)

/-- A backend double whose reads and writes all succeed in full and whose
device content is the constant byte 1 (the tests' ReadCallback). -/
def fcAllOk : FileClient :=
  { readRet := fun _ _ l => (l : Int)
    dataAt := fun _ => 1
    writeRet := fun _ _ l => (l : Int)
    closeRet := fun _ => 0 }

/-- A backend double whose reads, writes and closes all fail with -1. -/
def fcFail : FileClient :=
  { readRet := fun _ _ _ => -1
    dataAt := fun _ => 1
    writeRet := fun _ _ _ => -1
    closeRet := fun _ => -1 }

/-- A backend double whose reads succeed in full but whose writes return
a short count of 4095 bytes. -/
def fcShortWrite : FileClient :=
  { readRet := fun _ _ l => (l : Int)
    dataAt := fun _ => 1
    writeRet := fun _ _ _ => 4095
    closeRet := fun _ => 0 }

lemma blockSize_pos : 0 < blockSize := by norm_num [blockSize]

lemma alignOffset_le (offset : Nat) : alignOffset offset ≤ offset := by
  simp only [alignOffset, blockSize]; omega

lemma lt_alignOffset_add (offset : Nat) :
    offset < alignOffset offset + blockSize := by
  simp only [alignOffset, blockSize]; omega

lemma le_alignEnd (offset length : Nat) :
    offset + length ≤ alignOffset offset + alignLength offset length := by
  simp only [alignOffset, alignLength, blockSize]; omega

lemma alignEnd_lt (offset length : Nat) :
    alignOffset offset + alignLength offset length < offset + length + blockSize := by
  simp only [alignOffset, alignLength, blockSize]; omega

lemma blockSize_dvd_alignOffset (offset : Nat) : blockSize ∣ alignOffset offset :=
  dvd_mul_left blockSize (offset / blockSize)

lemma blockSize_dvd_alignLength (offset length : Nat) :
    blockSize ∣ alignLength offset length :=
  Nat.dvd_sub' (dvd_mul_left _ _) (blockSize_dvd_alignOffset offset)

lemma blockSize_le_alignLength (offset : Nat) {length : Nat} (h0 : 0 < length) :
    blockSize ≤ alignLength offset length := by
  refine Nat.le_of_dvd ?_ (blockSize_dvd_alignLength offset length)
  simp only [alignLength, alignOffset, blockSize]
  omega

lemma alignLength_min (offset length : Nat) {L : Nat} (hL : blockSize ∣ L)
    (hcov : offset + length ≤ alignOffset offset + L) :
    alignLength offset length ≤ L := by
  obtain ⟨k, rfl⟩ := hL
  simp only [alignLength, alignOffset, blockSize] at *
  omega

lemma readCalls_append (a b : List BackendCall) :
    readCalls (a ++ b) = readCalls a ++ readCalls b := by
  induction a with
  | nil => rfl
  | cons c rest ih => cases c <;> simp [readCalls, ih]

lemma writeCalls_append (a b : List BackendCall) :
    writeCalls (a ++ b) = writeCalls a ++ writeCalls b := by
  induction a with
  | nil => rfl
  | cons c rest ih => cases c <;> simp [writeCalls, ih]

lemma writeContents_append (a b : List BackendCall) :
    writeContents (a ++ b) = writeContents a ++ writeContents b := by
  induction a with
  | nil => rfl
  | cons c rest ih => cases c <;> simp [writeContents, ih]

lemma readCalls_map_read (fd : Int) (rs : List (Nat × Nat)) :
    readCalls (rs.map fun pr => BackendCall.read fd pr.1 pr.2) =
      rs.map fun pr => (fd, pr.1, pr.2) := by
  induction rs with
  | nil => rfl
  | cons pr rest ih => simp [readCalls, ih]

lemma writeCalls_map_read (fd : Int) (rs : List (Nat × Nat)) :
    writeCalls (rs.map fun pr => BackendCall.read fd pr.1 pr.2) = [] := by
  induction rs with
  | nil => rfl
  | cons pr rest ih => simp [writeCalls, ih]

lemma writeContents_map_read (fd : Int) (rs : List (Nat × Nat)) :
    writeContents (rs.map fun pr => BackendCall.read fd pr.1 pr.2) = [] := by
  induction rs with
  | nil => rfl
  | cons pr rest ih => simp [writeContents, ih]

lemma runReads_ok_iff (fc : FileClient) (fd : Int) (ao : Nat) :
    ∀ (rs : List (Nat × Nat)) (init : Nat → Nat),
      (runReads fc fd ao rs init).1 = true ↔
        ∀ pr ∈ rs, fc.readRet fd pr.1 pr.2 = (pr.2 : Int) := by
  intro rs
  induction rs with
  | nil => intro init; simp [runReads]
  | cons pr rest ih =>
    intro init
    by_cases h : fc.readRet fd pr.1 pr.2 = (pr.2 : Int)
    · simp [runReads, h, ih]
    · simp [runReads, h]

lemma runReads_calls_of_ok (fc : FileClient) (fd : Int) (ao : Nat) :
    ∀ (rs : List (Nat × Nat)) (init : Nat → Nat),
      (∀ pr ∈ rs, fc.readRet fd pr.1 pr.2 = (pr.2 : Int)) →
      (runReads fc fd ao rs init).2.2 =
        rs.map fun pr => BackendCall.read fd pr.1 pr.2 := by
  intro rs
  induction rs with
  | nil => intro init _; rfl
  | cons pr rest ih =>
    intro init h
    have hpr := h pr (List.mem_cons_self pr rest)
    simp [runReads, hpr, ih _ fun q hq => h q (List.mem_cons_of_mem pr hq)]

lemma runReads_fail_of_mem (fc : FileClient) (fd : Int) (ao : Nat) :
    ∀ (rs : List (Nat × Nat)) (init : Nat → Nat),
      (∃ c ∈ readCalls (runReads fc fd ao rs init).2.2,
        fc.readRet fd c.2.1 c.2.2 ≠ (c.2.2 : Int)) →
      (runReads fc fd ao rs init).1 = false := by
  intro rs
  induction rs with
  | nil => intro init h; simp [runReads, readCalls] at h
  | cons pr rest ih =>
    intro init h
    by_cases hpr : fc.readRet fd pr.1 pr.2 = (pr.2 : Int)
    · simp only [runReads, if_pos hpr, readCalls] at h ⊢
      rcases h with ⟨c, hc, hne⟩
      rcases List.mem_cons.mp hc with rfl | hc'
      · exact absurd hpr hne
      · exact ih _ ⟨c, hc', hne⟩
    · simp [runReads, hpr]

lemma writeCalls_runReads (fc : FileClient) (fd : Int) (ao : Nat) :
    ∀ (rs : List (Nat × Nat)) (init : Nat → Nat),
      writeCalls (runReads fc fd ao rs init).2.2 = [] := by
  intro rs
  induction rs with
  | nil => intro init; rfl
  | cons pr rest ih =>
    intro init
    by_cases hpr : fc.readRet fd pr.1 pr.2 = (pr.2 : Int)
    · simp [runReads, hpr, writeCalls, ih]
    · simp [runReads, hpr, writeCalls]

/-- Scratch positions covered by some planned read hold the device byte;
uncovered positions keep their initial value. -/
lemma runReads_scratch_of_ok (fc : FileClient) (fd : Int) (ao : Nat) :
    ∀ (rs : List (Nat × Nat)) (init : Nat → Nat),
      (runReads fc fd ao rs init).1 = true →
      ∀ i : Nat,
        ((∃ pr ∈ rs, pr.1 - ao ≤ i ∧ i < pr.1 - ao + pr.2) →
          (runReads fc fd ao rs init).2.1 i = fc.dataAt (ao + i)) ∧
        ((∀ pr ∈ rs, ¬(pr.1 - ao ≤ i ∧ i < pr.1 - ao + pr.2)) →
          (runReads fc fd ao rs init).2.1 i = init i) := by
  intro rs
  induction rs with
  | nil =>
    intro init _ i
    exact ⟨fun h => by simp at h, fun _ => rfl⟩
  | cons pr rest ih =>
    intro init hok i
    by_cases hpr : fc.readRet fd pr.1 pr.2 = (pr.2 : Int)
    · simp only [runReads, if_pos hpr] at hok ⊢
      have ihs := ih (applyRead fc ao init pr.1 pr.2) hok i
      constructor
      · rintro ⟨q, hq, hcov⟩
        rcases List.mem_cons.mp hq with rfl | hq'
        · by_cases hrest : ∃ q' ∈ rest, q'.1 - ao ≤ i ∧ i < q'.1 - ao + q'.2
          · exact ihs.1 hrest
          · push_neg at hrest
            have := ihs.2 fun q' hq' => by
              have := hrest q' hq'
              omega
            rw [this, applyRead, if_pos hcov]
        · exact ihs.1 ⟨q, hq', hcov⟩
      · intro hnone
        have h1 := hnone pr (List.mem_cons_self pr rest)
        have := ihs.2 fun q hq => hnone q (List.mem_cons_of_mem pr hq)
        rw [this, applyRead, if_neg h1]
    · simp [runReads, hpr] at hok

/-- Closed form of the boundary reads planned by an unaligned write:
one same-page read when the aligned range is a single block, a head
and/or tail block read otherwise, the two merging into one read of the
whole range when that range is exactly two blocks. -/
lemma paddingReads_eq (offset length : Nat) (h0 : 0 < length)
    (hun : ¬(offset = alignOffset offset ∧ length = alignLength offset length)) :
    paddingReads (alignOffset offset) (alignLength offset length) offset length =
      if alignLength offset length = blockSize then
        [(alignOffset offset, blockSize)]
      else if offset = alignOffset offset then
        [(alignOffset offset + alignLength offset length - blockSize, blockSize)]
      else if offset + length = alignOffset offset + alignLength offset length then
        [(alignOffset offset, blockSize)]
      else if alignLength offset length = blockSize + blockSize then
        [(alignOffset offset, blockSize + blockSize)]
      else
        [(alignOffset offset, blockSize),
         (alignOffset offset + alignLength offset length - blockSize, blockSize)] := by
  have hle := alignOffset_le offset
  have hlt := lt_alignOffset_add offset
  have hn := le_alignEnd offset length
  have hbs := blockSize_le_alignLength offset h0
  have hbp := blockSize_pos
  rcases eq_or_ne offset (alignOffset offset) with hoa | hoa
  · have hla : length ≠ alignLength offset length := fun h => hun ⟨hoa, h⟩
    have hcond : offset + length ≠ alignOffset offset + alignLength offset length := by
      omega
    simp only [paddingReads, if_neg (not_not_intro hoa)]
    rw [if_pos ⟨by omega, hcond⟩, if_neg (by simp), List.nil_append]
    rcases eq_or_ne (alignLength offset length) blockSize with hal | hal
    · rw [if_pos hal, hal]
      simp
    · rw [if_neg hal, if_pos hoa]
  · simp only [paddingReads, if_pos hoa]
    rcases eq_or_ne (alignLength offset length) blockSize with hal | hal
    · rw [if_neg (fun h => by omega : ¬(alignOffset offset + blockSize < offset + length ∧
          offset + length ≠ alignOffset offset + alignLength offset length)),
        if_pos hal]
    · have hgt : alignOffset offset + blockSize < offset + length := by
        by_cases hc : offset + length ≤ alignOffset offset + blockSize
        · have := alignLength_min offset length (dvd_refl blockSize) hc
          omega
        · omega
      rcases eq_or_ne (offset + length)
          (alignOffset offset + alignLength offset length) with htl | htl
      · rw [if_neg (fun h => h.2 htl), if_neg hal, if_neg hoa, if_pos htl]
      · rw [if_pos ⟨hgt, htl⟩, if_neg hal, if_neg hoa, if_neg htl]
        rcases eq_or_ne (alignLength offset length) (blockSize + blockSize) with hm | hm
        · rw [if_pos ⟨by simp, by omega⟩, if_pos hm]
        · rw [if_neg (fun h => hm (by omega)), if_neg hm]
          simp

/-- Every position of the aligned range outside the requested interval
is covered by one of the planned boundary reads. -/
lemma padding_covers (offset length : Nat) (h0 : 0 < length)
    (hun : ¬(offset = alignOffset offset ∧ length = alignLength offset length))
    (i : Nat) (hi : i < alignLength offset length)
    (hout : alignOffset offset + i < offset ∨
      offset + length ≤ alignOffset offset + i) :
    ∃ pr ∈ paddingReads (alignOffset offset) (alignLength offset length)
        offset length,
      pr.1 - alignOffset offset ≤ i ∧ i < pr.1 - alignOffset offset + pr.2 := by
  have hle := alignOffset_le offset
  have hlt := lt_alignOffset_add offset
  have hn := le_alignEnd offset length
  have hn2 := alignEnd_lt offset length
  have hbs := blockSize_le_alignLength offset h0
  have hbp := blockSize_pos
  rw [paddingReads_eq offset length h0 hun]
  split_ifs with h1 h2 h3 h4
  · exact ⟨(alignOffset offset, blockSize), by simp, by omega⟩
  · exact ⟨(alignOffset offset + alignLength offset length - blockSize, blockSize),
      by simp, by omega⟩
  · exact ⟨(alignOffset offset, blockSize), by simp, by omega⟩
  · exact ⟨(alignOffset offset, blockSize + blockSize), by simp, by omega⟩
  · rcases hout with hh | ht
    · exact ⟨(alignOffset offset, blockSize), by simp, by omega⟩
    · exact ⟨(alignOffset offset + alignLength offset length - blockSize, blockSize),
        by simp, by omega⟩

/-- C1: with blockSize 4096, the aligned range computed for a request
(offset, length) satisfies alignOffset = floor(offset/4096)·4096 and
alignOffset + alignLength = ceil((offset+length)/4096)·4096, hence
alignOffset ≤ offset, the aligned range covers [offset, offset+length),
both components are multiples of 4096, and alignLength is minimal among
4096-divisible lengths L whose range [alignOffset, alignOffset+L) covers
the request. -/
theorem align_range_correct (offset length L : Nat)
    (hL : 4096 ∣ L) (hcov : offset + length ≤ alignOffset offset + L) :
    alignOffset offset = offset / 4096 * 4096 ∧
    alignOffset offset + alignLength offset length =
      (offset + length + 4095) / 4096 * 4096 ∧
    alignOffset offset ≤ offset ∧
    offset + length ≤ alignOffset offset + alignLength offset length ∧
    4096 ∣ alignOffset offset ∧
    4096 ∣ alignLength offset length ∧
    alignLength offset length ≤ L := by
  refine ⟨rfl, ?_, alignOffset_le offset, le_alignEnd offset length,
    blockSize_dvd_alignOffset offset, blockSize_dvd_alignLength offset length,
    alignLength_min offset length hL hcov⟩
  simp only [alignLength, alignOffset, blockSize]
  omega

/-- Witness for C1 at offset 10000, length 10000, cover length L = 12288
(the request [10000, 20000) is covered by [8192, 8192 + 12288)). -/
theorem align_range_correct_witness :
    alignOffset 10000 = 8192 ∧ alignLength 10000 10000 = 12288 ∧
    alignLength 10000 10000 ≤ 12288 :=
  ⟨by decide, by decide,
    (align_range_correct 10000 10000 12288 ⟨3, rfl⟩ (by decide)).2.2.2.2.2.2⟩

/-- C2 counterexample: for Write(buf, 1, 4096) the aligned range is
[0, 8192) and both a head and a tail boundary exist, yet the single
backend read issued is Read(0, 8192) — the full aligned span — and no
read of exactly blockSize bytes at alignOffset is issued (the behaviour
the unit test TestWriteWithUnAligned pins for this input). -/
theorem write_boundary_reads_cex :
    alignOffset 1 < 1 ∧
    alignLength 1 4096 = 2 * blockSize ∧
    1 + 4096 < alignOffset 1 + alignLength 1 4096 ∧
    readCalls (Write fcAllOk (some 10) zeroBuf 1 4096).2 = [(10, 0, 8192)] ∧
    (10, alignOffset 1, blockSize) ∉
      readCalls (Write fcAllOk (some 10) zeroBuf 1 4096).2 := by
  refine ⟨by decide, by decide, by decide, ?_, ?_⟩ <;> decide

/-- C2 (amended): for every Write(buf, offset, length) with length > 0 on
an open handle whose boundary reads validate, the backend reads are
restricted to boundary pages and are exactly: none when the request is
already aligned; one read of the single page when the aligned range is
one block (head and tail fall in the same page); one head-page read
Read(alignOffset, blockSize) when only the head boundary exists; one
tail-page read Read(alignOffset+alignLength−blockSize, blockSize) when
only the tail boundary exists; and when both boundaries exist, one
merged read Read(alignOffset, 2·blockSize) of the full aligned span if
that span is exactly two blocks, otherwise the two separate
blockSize-sized head and tail reads (so the full span is read only in
the two-block merged case). -/
theorem write_boundary_reads (fc : FileClient) (fd : Int) (buf : Nat → Nat)
    (offset length : Nat) (h0 : 0 < length)
    (hreads : ∀ pr ∈ paddingReads (alignOffset offset)
        (alignLength offset length) offset length,
      fc.readRet fd pr.1 pr.2 = (pr.2 : Int)) :
    readCalls (Write fc (some fd) buf offset length).2 =
      if offset = alignOffset offset ∧ length = alignLength offset length then
        []
      else if alignLength offset length = blockSize then
        [(fd, alignOffset offset, blockSize)]
      else if offset = alignOffset offset then
        [(fd, alignOffset offset + alignLength offset length - blockSize, blockSize)]
      else if offset + length = alignOffset offset + alignLength offset length then
        [(fd, alignOffset offset, blockSize)]
      else if alignLength offset length = blockSize + blockSize then
        [(fd, alignOffset offset, blockSize + blockSize)]
      else
        [(fd, alignOffset offset, blockSize),
         (fd, alignOffset offset + alignLength offset length - blockSize, blockSize)] := by
  have hl0 : length ≠ 0 := by omega
  by_cases hun : offset = alignOffset offset ∧ length = alignLength offset length
  · rw [if_pos hun]
    simp only [Write, if_neg hl0, if_pos hun]
    simp [readCalls]
  · rw [if_neg hun]
    have hok : (runReads fc fd (alignOffset offset)
        (paddingReads (alignOffset offset) (alignLength offset length) offset length)
        (fun _ => 0)).1 = true :=
      (runReads_ok_iff fc fd (alignOffset offset) _ _).mpr hreads
    have hcalls := runReads_calls_of_ok fc fd (alignOffset offset)
      (paddingReads (alignOffset offset) (alignLength offset length) offset length)
      (fun _ => 0) hreads
    simp only [Write, if_neg hl0, if_neg hun, hok, if_true, hcalls]
    rw [readCalls_append, readCalls_map_read]
    rw [paddingReads_eq offset length h0 hun]
    split_ifs <;> simp [readCalls]

/-- Witness for the amended C2 at Write(10000, 10000) against an
all-succeeding backend: exactly the two boundary-page reads
(8192, 4096) and (16384, 4096) are issued. -/
theorem write_boundary_reads_witness :
    readCalls (Write fcAllOk (some 10) zeroBuf 10000 10000).2 =
      [(10, 8192, 4096), (10, 16384, 4096)] :=
  (write_boundary_reads fcAllOk 10 zeroBuf 10000 10000 (by decide)
    (by decide)).trans (by decide)

/-- C3: for every Write(buf, offset, length) with length > 0 on an open
handle whose boundary reads validate, exactly one backend
Write(alignOffset, alignLength) is issued; its buffer equals buf at every
position inside [offset, offset+length) and equals the boundary-read
backend content at every other position of the aligned range; and the
operation succeeds (returning length) iff that backend write returns
alignLength, any other backend return yielding a negative result. -/
theorem write_single_backend_write (fc : FileClient) (fd : Int)
    (buf : Nat → Nat) (offset length : Nat) (h0 : 0 < length)
    (hreads : ∀ pr ∈ paddingReads (alignOffset offset)
        (alignLength offset length) offset length,
      fc.readRet fd pr.1 pr.2 = (pr.2 : Int)) :
    writeCalls (Write fc (some fd) buf offset length).2 =
      [(fd, alignOffset offset, alignLength offset length)] ∧
    (∀ g ∈ writeContents (Write fc (some fd) buf offset length).2,
      ∀ i < alignLength offset length,
        g i = if offset ≤ alignOffset offset + i ∧
                alignOffset offset + i < offset + length then
                buf (alignOffset offset + i - offset)
              else fc.dataAt (alignOffset offset + i)) ∧
    ((Write fc (some fd) buf offset length).1 = (length : Int) ↔
      fc.writeRet fd (alignOffset offset) (alignLength offset length) =
        (alignLength offset length : Int)) ∧
    (fc.writeRet fd (alignOffset offset) (alignLength offset length) ≠
        (alignLength offset length : Int) →
      (Write fc (some fd) buf offset length).1 < 0) := by
  have hl0 : length ≠ 0 := by omega
  have hle := alignOffset_le offset
  by_cases hun : offset = alignOffset offset ∧ length = alignLength offset length
  · simp only [Write, if_neg hl0, if_pos hun]
    refine ⟨by simp [writeCalls], ?_, ?_, ?_⟩
    · intro g hg i hi
      simp only [writeContents, List.mem_singleton] at hg
      subst hg
      rw [if_pos (by omega)]
      have he : alignOffset offset + i - offset = i := by omega
      rw [he]
    · rcases eq_or_ne (fc.writeRet fd (alignOffset offset)
          (alignLength offset length)) ((alignLength offset length : Int)) with hw | hw
      · simp [hw]
      · simp only [if_neg hw]
        constructor
        · intro hcontra; exfalso; omega
        · intro h; exact absurd h hw
    · intro hw
      simp only [if_neg hw]
      omega
  · have hok : (runReads fc fd (alignOffset offset)
        (paddingReads (alignOffset offset) (alignLength offset length) offset length)
        (fun _ => 0)).1 = true :=
      (runReads_ok_iff fc fd (alignOffset offset) _ _).mpr hreads
    have hcalls := runReads_calls_of_ok fc fd (alignOffset offset)
      (paddingReads (alignOffset offset) (alignLength offset length) offset length)
      (fun _ => 0) hreads
    have hscratch := runReads_scratch_of_ok fc fd (alignOffset offset)
      (paddingReads (alignOffset offset) (alignLength offset length) offset length)
      (fun _ => 0) hok
    simp only [Write, if_neg hl0, if_neg hun, hok, if_true]
    refine ⟨?_, ?_, ?_, ?_⟩
    · rw [writeCalls_append, hcalls, writeCalls_map_read]
      simp [writeCalls]
    · intro g hg i hi
      rw [writeContents_append, hcalls, writeContents_map_read] at hg
      simp only [List.nil_append, writeContents, List.mem_singleton] at hg
      subst hg
      by_cases hin : offset ≤ alignOffset offset + i ∧
          alignOffset offset + i < offset + length
      · rw [if_pos hin, mergeBuf, if_pos (by omega)]
        have he : i - (offset - alignOffset offset) =
            alignOffset offset + i - offset := by omega
        rw [he]
      · rw [if_neg hin, mergeBuf, if_neg (by omega)]
        exact (hscratch i).1
          (padding_covers offset length h0 hun i hi (by omega))
    · rcases eq_or_ne (fc.writeRet fd (alignOffset offset)
          (alignLength offset length)) ((alignLength offset length : Int)) with hw | hw
      · simp [hw]
      · simp only [if_neg hw]
        constructor
        · intro hcontra; exfalso; omega
        · intro h; exact absurd h hw
    · intro hw
      simp only [if_neg hw]
      omega

/-- Witness for C3 at Write(1, 1): one backend write of the aligned page
[0, 4096), succeeding with result 1, whose buffer holds the caller byte
at position 1 and the boundary-read device byte elsewhere. -/
theorem write_single_backend_write_witness :
    writeCalls (Write fcAllOk (some 10) (fun _ => 2) 1 1).2 = [(10, 0, 4096)] ∧
    (Write fcAllOk (some 10) (fun _ => 2) 1 1).1 = 1 := by
  have h := write_single_backend_write fcAllOk 10 (fun _ => 2) 1 1
    (by decide) (by decide)
  exact ⟨h.1.trans (by decide), (h.2.2.1.mpr (by decide)).trans (by decide)⟩

/-- C4: for every Write where some issued boundary read returns a value
different from the requested read length (negative or a short count),
the Write returns a negative value and no backend Write call is issued,
so a failed Write never partially applies. -/
theorem write_aborts_on_padding_failure (fc : FileClient) (fd? : Option Int)
    (buf : Nat → Nat) (offset length : Nat)
    (h : ∃ c ∈ readCalls (Write fc fd? buf offset length).2,
      fc.readRet c.1 c.2.1 c.2.2 ≠ (c.2.2 : Int)) :
    (Write fc fd? buf offset length).1 < 0 ∧
    writeCalls (Write fc fd? buf offset length).2 = [] := by
  cases fd? with
  | none => simp [Write, readCalls] at h
  | some fd =>
    by_cases hl0 : length = 0
    · simp [Write, hl0, readCalls] at h
    · by_cases hun : offset = alignOffset offset ∧ length = alignLength offset length
      · simp only [Write, if_neg hl0, if_pos hun, readCalls] at h
        simp at h
      · simp only [Write, if_neg hl0, if_neg hun] at h ⊢
        cases hfl : (runReads fc fd (alignOffset offset)
            (paddingReads (alignOffset offset) (alignLength offset length)
              offset length) (fun _ => 0)).1 with
        | false =>
          simp only [hfl, Bool.false_eq_true, if_false]
          exact ⟨by omega, writeCalls_runReads fc fd (alignOffset offset) _ _⟩
        | true =>
          exfalso
          simp only [hfl, if_true] at h
          rw [readCalls_append] at h
          have hsucc := (runReads_ok_iff fc fd (alignOffset offset)
            (paddingReads (alignOffset offset) (alignLength offset length)
              offset length) (fun _ => 0)).mp hfl
          have hcalls := runReads_calls_of_ok fc fd (alignOffset offset)
            (paddingReads (alignOffset offset) (alignLength offset length)
              offset length) (fun _ => 0) hsucc
          rw [hcalls, readCalls_map_read] at h
          rcases h with ⟨c, hc, hne⟩
          rw [List.mem_append] at hc
          rcases hc with hc | hc
          · rw [List.mem_map] at hc
            rcases hc with ⟨pr, hpr, rfl⟩
            exact hne (hsucc pr hpr)
          · simp [readCalls] at hc

/-- Witness for C4: Write(0, 1) against an always-failing backend — the
single boundary read fails, the write returns a negative value and no
backend write is issued. -/
theorem write_aborts_on_padding_failure_witness :
    (Write fcFail (some 10) zeroBuf 0 1).1 < 0 ∧
    writeCalls (Write fcFail (some 10) zeroBuf 0 1).2 = [] :=
  write_aborts_on_padding_failure fcFail (some 10) zeroBuf 0 1 (by decide)

lemma align_of_aligned (o l : Nat) (ho : o % blockSize = 0)
    (hl : l % blockSize = 0) : alignOffset o = o ∧ alignLength o l = l := by
  simp only [alignOffset, alignLength, blockSize] at *
  omega

/-- A positive-length Read issues exactly one backend read, of the
aligned range, whatever the backend returns. -/
lemma Read_calls (fc : FileClient) (fd : Int) (buf : Nat → Nat)
    (offset length : Nat) (h0 : 0 < length) :
    (Read fc (some fd) buf offset length).2.2 =
      [BackendCall.read fd (alignOffset offset) (alignLength offset length)] := by
  have hl0 : length ≠ 0 := by omega
  simp only [Read, if_neg hl0]
  split <;> rfl

/-- An aligned positive-length Write issues exactly one backend call: its
consolidated write, whatever the backend returns. -/
lemma Write_calls_aligned (fc : FileClient) (fd : Int) (buf : Nat → Nat)
    (o l : Nat) (ho : o % blockSize = 0) (hl : l % blockSize = 0)
    (h0 : 0 < l) :
    writeCalls (Write fc (some fd) buf o l).2 = [(fd, o, l)] := by
  obtain ⟨hao, hal⟩ := align_of_aligned o l ho hl
  have hl0 : l ≠ 0 := by omega
  simp only [Write, if_neg hl0,
    if_pos (show o = alignOffset o ∧ l = alignLength o l from ⟨hao.symm, hal.symm⟩)]
  simp [writeCalls, hao, hal]

lemma readv_calls_length (fc : FileClient) (fd : Int)
    (parts : List (Nat × Nat)) (hall : ∀ p ∈ parts, 0 < p.2) :
    (readCalls (parts.map fun p =>
      (Read fc (some fd) zeroBuf p.1 p.2).2.2).flatten).length = parts.length := by
  induction parts with
  | nil => rfl
  | cons p rest ih =>
    simp only [List.map_cons, List.flatten_cons, readCalls_append,
      List.length_append]
    rw [Read_calls fc fd zeroBuf p.1 p.2 (hall p (List.mem_cons_self p rest))]
    simp [readCalls, ih fun q hq => hall q (List.mem_cons_of_mem p hq)]
    omega

lemma writev_calls_length (fc : FileClient) (fd : Int) (buf : Nat → Nat)
    (parts : List (Nat × Nat))
    (hall : ∀ p ∈ parts, p.1 % blockSize = 0 ∧ p.2 % blockSize = 0 ∧ 0 < p.2) :
    (writeCalls (parts.map fun p =>
      (Write fc (some fd) buf p.1 p.2).2).flatten).length = parts.length := by
  induction parts with
  | nil => rfl
  | cons p rest ih =>
    obtain ⟨h1, h2, h3⟩ := hall p (List.mem_cons_self p rest)
    simp only [List.map_cons, List.flatten_cons, writeCalls_append,
      List.length_append]
    rw [Write_calls_aligned fc fd buf p.1 p.2 h1 h2 h3]
    simp [ih fun q hq => hall q (List.mem_cons_of_mem p hq)]
    omega

/-- C5: for Readv/Writev over a sequence of parts on an open handle, the
issued backend trace is the concatenation of every part's standalone
trace (all parts run regardless of other parts' failures); when all
parts return their requested lengths the overall result is the sum of
the requested lengths; when at least one part fails the overall result
is a single negative value; and for block-aligned positive parts each
part's underlying backend operation appears exactly once, so the trace
holds exactly one backend call per part even when every part fails. -/
theorem vector_io_dispatch (fc : FileClient) (fd : Int) (buf : Nat → Nat)
    (parts : List (Nat × Nat)) :
    (Readv fc (some fd) parts).2 =
      (parts.map fun p => (Read fc (some fd) zeroBuf p.1 p.2).2.2).flatten ∧
    (Writev fc (some fd) buf parts).2 =
      (parts.map fun p => (Write fc (some fd) buf p.1 p.2).2).flatten ∧
    ((∀ p ∈ parts, (Read fc (some fd) zeroBuf p.1 p.2).1 = (p.2 : Int)) →
      (Readv fc (some fd) parts).1 = (parts.map fun p => (p.2 : Int)).sum) ∧
    ((∀ p ∈ parts, (Write fc (some fd) buf p.1 p.2).1 = (p.2 : Int)) →
      (Writev fc (some fd) buf parts).1 = (parts.map fun p => (p.2 : Int)).sum) ∧
    ((∃ p ∈ parts, (Read fc (some fd) zeroBuf p.1 p.2).1 < 0) →
      (Readv fc (some fd) parts).1 < 0) ∧
    ((∃ p ∈ parts, (Write fc (some fd) buf p.1 p.2).1 < 0) →
      (Writev fc (some fd) buf parts).1 < 0) ∧
    ((∀ p ∈ parts, p.1 % blockSize = 0 ∧ p.2 % blockSize = 0 ∧ 0 < p.2) →
      (readCalls (Readv fc (some fd) parts).2).length = parts.length ∧
      (writeCalls (Writev fc (some fd) buf parts).2).length = parts.length) := by
  refine ⟨rfl, rfl, ?_, ?_, ?_, ?_, ?_⟩
  · intro hall
    have hmap : (parts.map fun p => (Read fc (some fd) zeroBuf p.1 p.2).1) =
        parts.map fun p => (p.2 : Int) := List.map_congr_left hall
    simp only [Readv, hmap]
    rw [if_neg]
    intro h
    obtain ⟨r, hr, hlt⟩ := List.any_eq_true.mp h
    obtain ⟨p, _, rfl⟩ := List.mem_map.mp hr
    exact absurd (of_decide_eq_true hlt) (by omega)
  · intro hall
    have hmap : (parts.map fun p => (Write fc (some fd) buf p.1 p.2).1) =
        parts.map fun p => (p.2 : Int) := List.map_congr_left hall
    simp only [Writev, hmap]
    rw [if_neg]
    intro h
    obtain ⟨r, hr, hlt⟩ := List.any_eq_true.mp h
    obtain ⟨p, _, rfl⟩ := List.mem_map.mp hr
    exact absurd (of_decide_eq_true hlt) (by omega)
  · rintro ⟨p, hp, hneg⟩
    simp only [Readv]
    have hC : ((parts.map fun p => (Read fc (some fd) zeroBuf p.1 p.2).1).any
        fun r => decide (r < 0)) = true :=
      List.any_eq_true.mpr ⟨_, List.mem_map.mpr ⟨p, hp, rfl⟩, decide_eq_true hneg⟩
    rw [hC]
    simp
  · rintro ⟨p, hp, hneg⟩
    simp only [Writev]
    have hC : ((parts.map fun p => (Write fc (some fd) buf p.1 p.2).1).any
        fun r => decide (r < 0)) = true :=
      List.any_eq_true.mpr ⟨_, List.mem_map.mpr ⟨p, hp, rfl⟩, decide_eq_true hneg⟩
    rw [hC]
    simp
  · intro hall
    exact ⟨readv_calls_length fc fd parts fun p hp => (hall p hp).2.2,
      writev_calls_length fc fd buf parts hall⟩

/-- Witness for C5: four disjoint aligned 4-KiB parts — all succeeding
reads sum to 16384; against an all-failing backend the overall result is
negative while all four backend reads are still issued exactly once. -/
theorem vector_io_dispatch_witness :
    (Readv fcAllOk (some 1)
      [(0, 4096), (4194304, 4096), (8388608, 4096), (12582912, 4096)]).1 = 16384 ∧
    (Readv fcFail (some 1)
      [(0, 4096), (4194304, 4096), (8388608, 4096), (12582912, 4096)]).1 < 0 ∧
    (readCalls (Readv fcFail (some 1)
      [(0, 4096), (4194304, 4096), (8388608, 4096), (12582912, 4096)]).2).length = 4 := by
  have h1 := vector_io_dispatch fcAllOk 1 zeroBuf
    [(0, 4096), (4194304, 4096), (8388608, 4096), (12582912, 4096)]
  have h2 := vector_io_dispatch fcFail 1 zeroBuf
    [(0, 4096), (4194304, 4096), (8388608, 4096), (12582912, 4096)]
  refine ⟨(h1.2.2.1 (by decide)).trans (by decide),
    h2.2.2.2.2.1 (by decide),
    ((h2.2.2.2.2.2.2 (by decide)).1).trans (by decide)⟩

/-- C6: for a single-region Read or Write with length > 0 on an open
handle, a backend return not equal to the requested aligned length —
negative, zero or a positive short count — makes the operation fail with
a negative result, with no retry: the failing Read still shows exactly
one backend read of the aligned range in its trace, and the failing
Write (whose boundary reads validated) exactly one backend write. -/
theorem backend_short_return_fails (fc : FileClient) (fd : Int)
    (buf : Nat → Nat) (offset length : Nat) (h0 : 0 < length) :
    (fc.readRet fd (alignOffset offset) (alignLength offset length) ≠
        (alignLength offset length : Int) →
      (Read fc (some fd) buf offset length).1 < 0 ∧
      readCalls (Read fc (some fd) buf offset length).2.2 =
        [(fd, alignOffset offset, alignLength offset length)]) ∧
    ((∀ pr ∈ paddingReads (alignOffset offset) (alignLength offset length)
        offset length, fc.readRet fd pr.1 pr.2 = (pr.2 : Int)) →
      fc.writeRet fd (alignOffset offset) (alignLength offset length) ≠
        (alignLength offset length : Int) →
      (Write fc (some fd) buf offset length).1 < 0 ∧
      writeCalls (Write fc (some fd) buf offset length).2 =
        [(fd, alignOffset offset, alignLength offset length)]) := by
  have hl0 : length ≠ 0 := by omega
  constructor
  · intro hfail
    simp only [Read, if_neg hl0, if_neg hfail]
    exact ⟨by omega, by simp [readCalls]⟩
  · intro hreads hw
    by_cases hun : offset = alignOffset offset ∧ length = alignLength offset length
    · simp only [Write, if_neg hl0, if_pos hun, if_neg hw]
      exact ⟨by omega, by simp [writeCalls]⟩
    · have hok : (runReads fc fd (alignOffset offset)
          (paddingReads (alignOffset offset) (alignLength offset length)
            offset length) (fun _ => 0)).1 = true :=
        (runReads_ok_iff fc fd (alignOffset offset) _ _).mpr hreads
      have hcalls := runReads_calls_of_ok fc fd (alignOffset offset)
        (paddingReads (alignOffset offset) (alignLength offset length)
          offset length) (fun _ => 0) hreads
      simp only [Write, if_neg hl0, if_neg hun, hok, if_true, if_neg hw]
      refine ⟨by omega, ?_⟩
      rw [writeCalls_append, hcalls, writeCalls_map_read]
      simp [writeCalls]

/-- Witness for C6: a failed backend read (return -1 for 4096 requested)
fails the Read, and a short backend write (4095 of 4096) fails the
Write. -/
theorem backend_short_return_fails_witness :
    (Read fcFail (some 10) zeroBuf 0 4096).1 < 0 ∧
    (Write fcShortWrite (some 10) zeroBuf 0 4096).1 < 0 :=
  ⟨((backend_short_return_fails fcFail 10 zeroBuf 0 4096 (by decide)).1
      (by decide)).1,
   ((backend_short_return_fails fcShortWrite 10 zeroBuf 0 4096 (by decide)).2
      (by decide) (by decide)).1⟩

/-- C7: Read and Write invoked while no handle is open (the sentinel
state) return a negative value immediately, issue no backend call of any
kind, and leave the caller buffer untouched. -/
theorem no_open_handle_fails_fast (fc : FileClient) (buf : Nat → Nat)
    (offset length : Nat) :
    Read fc none buf offset length = (-1, buf, []) ∧
    Write fc none buf offset length = (-1, []) :=
  ⟨rfl, rfl⟩

/-- C8 counterexample: with no open handle, a zero-length Read or Write
returns the negative StateError value, not 0 — the open-handle check
precedes the zero-length no-op. -/
theorem zero_length_noop_cex :
    (Read fcAllOk none zeroBuf 0 0).1 = -1 ∧
    (Read fcAllOk none zeroBuf 0 0).1 ≠ 0 ∧
    (Write fcAllOk none zeroBuf 0 0).1 = -1 ∧
    (Write fcAllOk none zeroBuf 0 0).1 ≠ 0 :=
  ⟨rfl, by decide, rfl, by decide⟩

/-- C8 (amended): on an open handle, every Read and Write with
length == 0 returns 0 and issues zero backend calls (with no open handle
such calls fail fast with a negative value, still issuing no backend
call). -/
theorem zero_length_noop (fc : FileClient) (fd : Int) (buf : Nat → Nat)
    (offset : Nat) :
    Read fc (some fd) buf offset 0 = (0, buf, []) ∧
    Write fc (some fd) buf offset 0 = (0, []) :=
  ⟨rfl, rfl⟩

/-- C9: Close with no open handle succeeds as a no-op with zero backend
calls; with an open handle it issues the backend close, succeeding and
clearing the handle when the backend status is non-negative, while a
negative backend status yields failure with the handle retained, so a
subsequent Close retries the backend close on the same descriptor. -/
theorem close_semantics (fc : FileClient) (fd : Int) :
    Close fc none = (true, none, []) ∧
    (0 ≤ fc.closeRet fd →
      Close fc (some fd) = (true, none, [BackendCall.close fd])) ∧
    (fc.closeRet fd < 0 →
      Close fc (some fd) = (false, some fd, [BackendCall.close fd]) ∧
      (Close fc (Close fc (some fd)).2.1).2.2 = [BackendCall.close fd]) := by
  refine ⟨rfl, fun h => ?_, fun h => ?_⟩
  · simp [Close, h]
  · have hn : ¬ 0 ≤ fc.closeRet fd := by omega
    exact ⟨by simp [Close, hn], by simp [Close, hn]⟩

/-- Witness for C9: against a backend whose close fails, Close on an
open handle fails retaining the descriptor, and closing again reissues
the backend close on that same descriptor. -/
theorem close_semantics_witness :
    Close fcFail none = (true, none, []) ∧
    Close fcFail (some 7) = (false, some 7, [BackendCall.close 7]) ∧
    (Close fcFail (Close fcFail (some 7)).2.1).2.2 = [BackendCall.close 7] :=
  ⟨(close_semantics fcFail 7).1,
   ((close_semantics fcFail 7).2.2 (by decide)).1,
   ((close_semantics fcFail 7).2.2 (by decide)).2⟩

/-- C10: an unaligned Read whose backend aligned read fails (a negative
return or a count short of alignLength) leaves every byte of the caller
buffer unchanged. -/
theorem failed_read_preserves_buffer (fc : FileClient) (fd : Int)
    (buf : Nat → Nat) (offset length : Nat) (h0 : 0 < length)
    (hun : ¬(offset = alignOffset offset ∧ length = alignLength offset length))
    (hfail : fc.readRet fd (alignOffset offset) (alignLength offset length) ≠
      (alignLength offset length : Int)) :
    (Read fc (some fd) buf offset length).2.1 = buf ∧
    (Read fc (some fd) buf offset length).1 < 0 := by
  have hl0 : length ≠ 0 := by omega
  have h1 : Read fc (some fd) buf offset length =
      (-1, buf,
        [BackendCall.read fd (alignOffset offset) (alignLength offset length)]) := by
    simp [Read, hl0, hfail]
  rw [h1]
  exact ⟨rfl, by omega⟩

/-- Witness for C10: a failed unaligned Read(0, 1) leaves the caller
buffer equal to its initial state. -/
theorem failed_read_preserves_buffer_witness :
    (Read fcFail (some 10) zeroBuf 0 1).2.1 = zeroBuf ∧
    (Read fcFail (some 10) zeroBuf 0 1).1 < 0 :=
  failed_read_preserves_buffer fcFail 10 zeroBuf 0 1 (by decide) (by decide)
    (by decide)

end CurveVolume
